import Mathlib

/-
Shallow embedding of the governance pallet from src/src/governance.rs.

The pallet keeps three pieces of state: a proposals map (proposal id to
proposal record), a votes map ((voter, proposal id) to boolean vote) and a
next_proposal_id counter.  The account identifier type is abstracted as a
type parameter A with decidable equality, matching the generic
T::AccountId of the source.  HashMaps are embedded as association lists
with first-match lookup and replace-or-append insertion; u32 counters are
embedded as Nat with explicit wrap-around modulo 2 ^ 32 at every
unchecked increment, matching release-mode wrapping of the u32 fields.
-/

deriving instance DecidableEq for Except

namespace Governance

/-- Modulus of the u32 fields of the source (yes_votes, no_votes,
next_proposal_id): 2 ^ 32. -/
def U32 : Nat := 4294967296

/-- Status of a proposal, source enum ProposalStatus. -/
inductive ProposalStatus
  | Active
  | Approved
  | Rejected
  deriving DecidableEq

/-- A proposal record, source struct Proposal with AccountId abstracted as A. -/
structure Proposal (A : Type) where
  description : String
  yes_votes : Nat
  no_votes : Nat
  status : ProposalStatus
  creator : A
  deriving DecidableEq

/-- The pallet state, source struct GovernancePallet.  The two HashMaps are
embedded as association lists. -/
structure GovernancePallet (A : Type) where
  proposals : List (Nat × Proposal A)
  votes : List ((A × Nat) × Bool)
  next_proposal_id : Nat
  deriving DecidableEq

/-- First-match association list lookup, embedding HashMap::get. -/
def lookupKV {κ α : Type} [DecidableEq κ] : List (κ × α) → κ → Option α
  | [], _ => none
  | (k, v) :: rest, k0 => if k0 = k then some v else lookupKV rest k0

/-- Association list insertion, embedding HashMap::insert: replaces the value
at an existing key, otherwise appends the new entry. -/
def insertKV {κ α : Type} [DecidableEq κ] : List (κ × α) → κ → α → List (κ × α)
  | [], k0, v0 => [(k0, v0)]
  | (k, v) :: rest, k0, v0 =>
      if k0 = k then (k0, v0) :: rest else (k, v) :: insertKV rest k0 v0

/-- Source error string of GovernancePallet::vote and finalize_proposal when
the proposal id is absent; the spec names it ProposalNotFound. -/
def ProposalNotFound : String := "No proposal found with the given ID"

/-- Source error string of GovernancePallet::vote on a non-Active proposal;
the spec names it ProposalNotActive. -/
def ProposalNotActive : String := "Cannot vote on inactive proposal"

/-- Source error string of GovernancePallet::vote on a repeated
(voter, proposal) pair; the spec names it DuplicateVote. -/
def DuplicateVote : String := "Voter has already cast a vote for this proposal"

/-- Source error string of GovernancePallet::finalize_proposal on a
non-Active proposal; the spec names it AlreadyFinalized. -/
def AlreadyFinalized : String := "Cannot finalize an already finalized proposal"

/-- Source GovernancePallet::new. -/
def new {A : Type} : GovernancePallet A :=
  { proposals := [], votes := [], next_proposal_id := 0 }

/-- Source GovernancePallet::create_proposal.  Returns the result together
with the post state. -/
def create_proposal {A : Type} [DecidableEq A] (s : GovernancePallet A)
    (creator : A) (description : String) :
    Except String Nat × GovernancePallet A :=
  let current_id := s.next_proposal_id
  let new_proposal : Proposal A :=
    { description := description, yes_votes := 0, no_votes := 0,
      status := ProposalStatus.Active, creator := creator }
  (Except.ok current_id,
    { s with proposals := insertKV s.proposals current_id new_proposal,
             next_proposal_id := (s.next_proposal_id + 1) % U32 })

/-- Source GovernancePallet::vote.  Checks, in source order: the proposal
exists, its status is Active, and no vote record exists for
(voter, proposal_id); on success records the vote and increments the
matching counter (u32 wrapping increment). -/
def vote {A : Type} [DecidableEq A] (s : GovernancePallet A)
    (voter : A) (proposal_id : Nat) (vote_type : Bool) :
    Except String Unit × GovernancePallet A :=
  match lookupKV s.proposals proposal_id with
  | none => (Except.error ProposalNotFound, s)
  | some proposal =>
    if proposal.status ≠ ProposalStatus.Active then
      (Except.error ProposalNotActive, s)
    else if (lookupKV s.votes (voter, proposal_id)).isSome then
      (Except.error DuplicateVote, s)
    else
      (Except.ok (),
        { s with
            votes := insertKV s.votes (voter, proposal_id) vote_type,
            proposals := insertKV s.proposals proposal_id
              (if vote_type then
                { proposal with yes_votes := (proposal.yes_votes + 1) % U32 }
               else
                { proposal with no_votes := (proposal.no_votes + 1) % U32 }) })

/-- Source GovernancePallet::get_proposal. -/
def get_proposal {A : Type} [DecidableEq A] (s : GovernancePallet A)
    (proposal_id : Nat) : Option (Proposal A) :=
  lookupKV s.proposals proposal_id

/-- Source GovernancePallet::finalize_proposal: on an Active proposal sets
the status to Approved when yes_votes > no_votes and to Rejected otherwise,
and returns the new status. -/
def finalize_proposal {A : Type} [DecidableEq A] (s : GovernancePallet A)
    (proposal_id : Nat) : Except String ProposalStatus × GovernancePallet A :=
  match lookupKV s.proposals proposal_id with
  | none => (Except.error ProposalNotFound, s)
  | some proposal =>
    if proposal.status ≠ ProposalStatus.Active then
      (Except.error AlreadyFinalized, s)
    else
      let new_status :=
        if proposal.yes_votes > proposal.no_votes then ProposalStatus.Approved
        else ProposalStatus.Rejected
      let updated : Proposal A := { proposal with status := new_status }
      (Except.ok new_status,
        { s with proposals := insertKV s.proposals proposal_id updated })

/-- Source GovernancePallet::get_proposal_details. -/
def get_proposal_details {A : Type} [DecidableEq A] (s : GovernancePallet A)
    (proposal_id : Nat) : Except String (String × A) :=
  match lookupKV s.proposals proposal_id with
  | some proposal => Except.ok (proposal.description, proposal.creator)
  | none => Except.error ProposalNotFound

/-- One ledger call, used to describe sequences of operations against the
pallet. -/
inductive Op (A : Type)
  | create (creator : A) (description : String)
  | castVote (voter : A) (proposal_id : Nat) (vote_type : Bool)
  | getProposal (proposal_id : Nat)
  | finalize (proposal_id : Nat)
  | getDetails (proposal_id : Nat)
  deriving DecidableEq

/-- State transition of a single call: the mutating calls move to the post
state of the corresponding operation; get_proposal and get_proposal_details
take the receiver by shared reference in the source and leave the state
untouched. -/
def applyOp {A : Type} [DecidableEq A] (s : GovernancePallet A) :
    Op A → GovernancePallet A
  | Op.create c d => (create_proposal s c d).2
  | Op.castVote v pid t => (vote s v pid t).2
  | Op.getProposal _ => s
  | Op.finalize pid => (finalize_proposal s pid).2
  | Op.getDetails _ => s

/-- Run a sequence of calls from a state. -/
def run {A : Type} [DecidableEq A] (s : GovernancePallet A)
    (ops : List (Op A)) : GovernancePallet A :=
  ops.foldl applyOp s

/-- A state is reachable when some sequence of calls from
GovernancePallet::new produces it. -/
def Reachable {A : Type} [DecidableEq A] (s : GovernancePallet A) : Prop :=
  ∃ ops : List (Op A), run new ops = s

/-- Number of create_proposal calls in a sequence of operations. -/
def countCreates {A : Type} : List (Op A) → Nat
  | [] => 0
  | Op.create _ _ :: rest => countCreates rest + 1
  | _ :: rest => countCreates rest

/-- Number of vote records for a given proposal id. -/
def countVotes {A : Type} [DecidableEq A]
    (votes : List ((A × Nat) × Bool)) (pid : Nat) : Nat :=
  (votes.filter (fun e => e.1.2 == pid)).length

/-- Number of vote records for a given proposal id carrying a given vote
value. -/
def countVotesFor {A : Type} [DecidableEq A]
    (votes : List ((A × Nat) × Bool)) (pid : Nat) (b : Bool) : Nat :=
  (votes.filter (fun e => e.1.2 == pid && e.2 == b)).length

/-- Lookup after insertion: the inserted key maps to the new value, every
other key is unaffected. -/
theorem lookupKV_insertKV {κ α : Type} [DecidableEq κ]
    (l : List (κ × α)) (k k0 : κ) (v : α) :
    lookupKV (insertKV l k v) k0 = if k0 = k then some v else lookupKV l k0 := by
  induction l with
  | nil =>
    by_cases h : k0 = k <;> simp [insertKV, lookupKV, h]
  | cons e rest ih =>
    obtain ⟨ke, ve⟩ := e
    by_cases hk : k = ke <;> by_cases h0 : k0 = ke <;> by_cases h1 : k0 = k <;>
      simp_all [insertKV, lookupKV]

/-- Lookup distributes over append when the key is absent from the first
part. -/
theorem lookupKV_append_of_none {κ α : Type} [DecidableEq κ]
    {l1 : List (κ × α)} (l2 : List (κ × α)) {k : κ}
    (h : lookupKV l1 k = none) : lookupKV (l1 ++ l2) k = lookupKV l2 k := by
  induction l1 with
  | nil => rfl
  | cons e rest ih =>
    obtain ⟨ke, ve⟩ := e
    by_cases hk : k = ke <;> simp_all [lookupKV]

/-- Lookup distributes over append when the key is found in the first
part. -/
theorem lookupKV_append_of_some {κ α : Type} [DecidableEq κ]
    {l1 : List (κ × α)} (l2 : List (κ × α)) {k : κ} {v : α}
    (h : lookupKV l1 k = some v) : lookupKV (l1 ++ l2) k = some v := by
  induction l1 with
  | nil => simp [lookupKV] at h
  | cons e rest ih =>
    obtain ⟨ke, ve⟩ := e
    by_cases hk : k = ke <;> simp_all [lookupKV]

/-- Inserting an absent key appends the new entry at the end. -/
theorem insertKV_of_lookup_none {κ α : Type} [DecidableEq κ]
    {l : List (κ × α)} {k : κ} (v : α)
    (h : lookupKV l k = none) : insertKV l k v = l ++ [(k, v)] := by
  induction l with
  | nil => rfl
  | cons e rest ih =>
    obtain ⟨ke, ve⟩ := e
    by_cases hk : k = ke <;> simp_all [lookupKV, insertKV]

/-- Every entry of the list is found by lookup at its own key (possibly
shadowed by an earlier entry, hence only isSome). -/
theorem lookupKV_isSome_of_mem {κ α : Type} [DecidableEq κ]
    {l : List (κ × α)} {e : κ × α} (h : e ∈ l) :
    (lookupKV l e.1).isSome := by
  induction l with
  | nil => cases h
  | cons f rest ih =>
    obtain ⟨fk, fv⟩ := f
    by_cases hk : e.1 = fk
    · simp [lookupKV, hk]
    · rcases List.mem_cons.mp h with he | he
      · rw [he] at hk; simp at hk
      · simpa [lookupKV, hk] using ih he

/-- Vote records split into yes records and no records. -/
theorem countVotes_eq_for_add {A : Type} [DecidableEq A]
    (votes : List ((A × Nat) × Bool)) (pid : Nat) :
    countVotes votes pid =
      countVotesFor votes pid true + countVotesFor votes pid false := by
  induction votes with
  | nil => rfl
  | cons e rest ih =>
    obtain ⟨⟨v, p⟩, b⟩ := e
    by_cases hp : p = pid <;> cases b <;>
      simp [countVotes, countVotesFor, List.filter_cons, hp] at * <;> omega

/-- Counting vote records distributes over append. -/
theorem countVotesFor_append {A : Type} [DecidableEq A]
    (l1 l2 : List ((A × Nat) × Bool)) (pid : Nat) (b : Bool) :
    countVotesFor (l1 ++ l2) pid b =
      countVotesFor l1 pid b + countVotesFor l2 pid b := by
  simp [countVotesFor, List.filter_append]

/-- Count of a single vote record. -/
theorem countVotesFor_single {A : Type} [DecidableEq A]
    (v : A) (pid0 pid : Nat) (t b : Bool) :
    countVotesFor [((v, pid0), t)] pid b =
      if pid0 = pid ∧ t = b then 1 else 0 := by
  by_cases h1 : pid0 = pid <;> by_cases h2 : t = b <;>
    simp [countVotesFor, h1, h2]

/-- A list with no record for a proposal id counts zero votes for it. -/
theorem countVotesFor_eq_zero {A : Type} [DecidableEq A]
    {votes : List ((A × Nat) × Bool)} {pid : Nat}
    (h : ∀ e ∈ votes, e.1.2 ≠ pid) (b : Bool) :
    countVotesFor votes pid b = 0 := by
  unfold countVotesFor
  rw [List.length_eq_zero, List.filter_eq_nil_iff]
  intro e he
  simp [h e he]

/-- Running the empty sequence of calls is the identity. -/
theorem run_nil {A : Type} [DecidableEq A] (s : GovernancePallet A) :
    run s [] = s := rfl

/-- Running a call sequence one call at a time. -/
theorem run_cons {A : Type} [DecidableEq A] (s : GovernancePallet A)
    (op : Op A) (ops : List (Op A)) :
    run s (op :: ops) = run (applyOp s op) ops := rfl

/-- Running an appended call sequence runs the two parts in order. -/
theorem run_append {A : Type} [DecidableEq A] (s : GovernancePallet A)
    (l1 l2 : List (Op A)) : run s (l1 ++ l2) = run (run s l1) l2 := by
  simp [run, List.foldl_append]

/-- Unfolded form of create_proposal. -/
theorem create_eq {A : Type} [DecidableEq A] (s : GovernancePallet A)
    (c : A) (d : String) :
    create_proposal s c d =
      (Except.ok s.next_proposal_id,
       { s with
           proposals := insertKV s.proposals s.next_proposal_id
             { description := d, yes_votes := 0, no_votes := 0,
               status := ProposalStatus.Active, creator := c },
           next_proposal_id := (s.next_proposal_id + 1) % U32 }) := rfl

/-- Vote on an absent proposal id: error, state untouched. -/
theorem vote_eq_notfound {A : Type} [DecidableEq A] {s : GovernancePallet A}
    {pid : Nat} (v : A) (t : Bool)
    (h : lookupKV s.proposals pid = none) :
    vote s v pid t = (Except.error ProposalNotFound, s) := by
  simp [vote, h]

/-- Vote on a non-Active proposal: error, state untouched. -/
theorem vote_eq_notactive {A : Type} [DecidableEq A] {s : GovernancePallet A}
    {pid : Nat} {p : Proposal A} (v : A) (t : Bool)
    (h : lookupKV s.proposals pid = some p)
    (hs : p.status ≠ ProposalStatus.Active) :
    vote s v pid t = (Except.error ProposalNotActive, s) := by
  simp [vote, h, hs]

/-- Repeated vote by the same voter on an Active proposal: error, state
untouched. -/
theorem vote_eq_dup {A : Type} [DecidableEq A] {s : GovernancePallet A}
    {pid : Nat} {p : Proposal A} {v : A} {b : Bool} (t : Bool)
    (h : lookupKV s.proposals pid = some p)
    (hs : p.status = ProposalStatus.Active)
    (hd : lookupKV s.votes (v, pid) = some b) :
    vote s v pid t = (Except.error DuplicateVote, s) := by
  simp [vote, h, hs, hd]

/-- Successful vote: records the vote and bumps the matching counter. -/
theorem vote_eq_ok {A : Type} [DecidableEq A] {s : GovernancePallet A}
    {pid : Nat} {p : Proposal A} {v : A} (t : Bool)
    (h : lookupKV s.proposals pid = some p)
    (hs : p.status = ProposalStatus.Active)
    (hd : lookupKV s.votes (v, pid) = none) :
    vote s v pid t =
      (Except.ok (),
       { s with
           votes := insertKV s.votes (v, pid) t,
           proposals := insertKV s.proposals pid
             (if t then { p with yes_votes := (p.yes_votes + 1) % U32 }
              else { p with no_votes := (p.no_votes + 1) % U32 }) }) := by
  simp [vote, h, hs, hd]

/-- Finalize on an absent proposal id: error, state untouched. -/
theorem finalize_eq_notfound {A : Type} [DecidableEq A]
    {s : GovernancePallet A} {pid : Nat}
    (h : lookupKV s.proposals pid = none) :
    finalize_proposal s pid = (Except.error ProposalNotFound, s) := by
  simp [finalize_proposal, h]

/-- Finalize on a non-Active proposal: error, state untouched. -/
theorem finalize_eq_already {A : Type} [DecidableEq A]
    {s : GovernancePallet A} {pid : Nat} {p : Proposal A}
    (h : lookupKV s.proposals pid = some p)
    (hs : p.status ≠ ProposalStatus.Active) :
    finalize_proposal s pid = (Except.error AlreadyFinalized, s) := by
  simp [finalize_proposal, h, hs]

/-- Successful finalize: stores and returns Approved when yes_votes exceeds
no_votes and Rejected otherwise. -/
theorem finalize_eq_ok {A : Type} [DecidableEq A]
    {s : GovernancePallet A} {pid : Nat} {p : Proposal A}
    (h : lookupKV s.proposals pid = some p)
    (hs : p.status = ProposalStatus.Active) :
    finalize_proposal s pid =
      (Except.ok (if p.yes_votes > p.no_votes then ProposalStatus.Approved
                  else ProposalStatus.Rejected),
       { s with proposals := insertKV s.proposals pid ({ p with status := if p.yes_votes > p.no_votes then ProposalStatus.Approved else ProposalStatus.Rejected }) }) := by
  simp [finalize_proposal, h, hs]

/-- Lookup of an entry key after an insertion stays defined. -/
theorem lookupKV_insertKV_isSome {κ α : Type} [DecidableEq κ]
    {l : List (κ × α)} {k0 : κ} (k : κ) (v : α)
    (h : (lookupKV l k0).isSome) : (lookupKV (insertKV l k v) k0).isSome := by
  rw [lookupKV_insertKV]
  by_cases hk : k0 = k <;> simp [hk, h]

/-- Inductive invariant of the pallet state: the allocation counter is a
u32 value, every allocated proposal id is below it, every vote record
points at an existing proposal, and each counter of a proposal equals the
number of matching vote records reduced modulo 2 ^ 32. -/
structure Inv {A : Type} [DecidableEq A] (s : GovernancePallet A) : Prop where
  next_lt : s.next_proposal_id < U32
  keys_lt : ∀ pid p, lookupKV s.proposals pid = some p →
    pid < s.next_proposal_id
  votes_ref : ∀ v pid b, lookupKV s.votes (v, pid) = some b →
    ∃ p, lookupKV s.proposals pid = some p
  tally_yes : ∀ pid p, lookupKV s.proposals pid = some p →
    p.yes_votes = countVotesFor s.votes pid true % U32
  tally_no : ∀ pid p, lookupKV s.proposals pid = some p →
    p.no_votes = countVotesFor s.votes pid false % U32

/-- The invariant holds at GovernancePallet::new. -/
theorem inv_new {A : Type} [DecidableEq A] :
    Inv (new : GovernancePallet A) := by
  constructor
  · show (0 : Nat) < U32
    decide
  · intro pid p hp
    simp [new, lookupKV] at hp
  · intro v pid b hb
    simp [new, lookupKV] at hb
  · intro pid p hp
    simp [new, lookupKV] at hp
  · intro pid p hp
    simp [new, lookupKV] at hp

/-- In an invariant state no vote record points at the unallocated next
proposal id. -/
theorem inv_votes_fresh {A : Type} [DecidableEq A] {s : GovernancePallet A}
    (hInv : Inv s) : ∀ e ∈ s.votes, e.1.2 ≠ s.next_proposal_id := by
  intro e he hEq
  have hsome := lookupKV_isSome_of_mem he
  obtain ⟨b, hb⟩ := Option.isSome_iff_exists.mp hsome
  have hb2 : lookupKV s.votes (e.1.1, e.1.2) = some b := by
    rw [Prod.mk.eta]; exact hb
  obtain ⟨p, hp⟩ := hInv.votes_ref e.1.1 e.1.2 b hb2
  have := hInv.keys_lt e.1.2 p hp
  omega

/-- In an invariant state the next proposal id is unallocated, so
create_proposal never overwrites an existing proposal. -/
theorem inv_next_unallocated {A : Type} [DecidableEq A]
    {s : GovernancePallet A} (hInv : Inv s) :
    lookupKV s.proposals s.next_proposal_id = none := by
  cases hp : lookupKV s.proposals s.next_proposal_id with
  | none => rfl
  | some p =>
    have := hInv.keys_lt s.next_proposal_id p hp
    omega

/-- create_proposal preserves the invariant and advances the counter by one
as long as the counter does not overflow. -/
theorem inv_create {A : Type} [DecidableEq A] {s : GovernancePallet A}
    (hInv : Inv s) (hlt : s.next_proposal_id + 1 < U32) (c : A) (d : String) :
    Inv (create_proposal s c d).2 ∧
    (create_proposal s c d).2.next_proposal_id = s.next_proposal_id + 1 := by
  have hmod : (s.next_proposal_id + 1) % U32 = s.next_proposal_id + 1 :=
    Nat.mod_eq_of_lt hlt
  have hfresh := inv_votes_fresh hInv
  rw [create_eq]
  refine ⟨⟨?_, ?_, ?_, ?_, ?_⟩, ?_⟩
  · simpa [hmod] using hlt
  · intro pid p hp
    rw [lookupKV_insertKV] at hp
    simp only [hmod]
    by_cases hk : pid = s.next_proposal_id
    · omega
    · rw [if_neg hk] at hp
      have := hInv.keys_lt pid p hp
      omega
  · intro v pid b hb
    obtain ⟨p, hp⟩ := hInv.votes_ref v pid b hb
    rw [lookupKV_insertKV]
    by_cases hk : pid = s.next_proposal_id
    · exact ⟨_, by rw [if_pos hk]⟩
    · exact ⟨p, by rw [if_neg hk]; exact hp⟩
  · intro pid p hp
    rw [lookupKV_insertKV] at hp
    by_cases hk : pid = s.next_proposal_id
    · rw [if_pos hk] at hp
      have h0 : countVotesFor s.votes pid true = 0 := by
        refine countVotesFor_eq_zero ?_ true
        intro e he
        rw [hk]
        exact hfresh e he
      rw [h0]
      cases hp
      rfl
    · rw [if_neg hk] at hp
      exact hInv.tally_yes pid p hp
  · intro pid p hp
    rw [lookupKV_insertKV] at hp
    by_cases hk : pid = s.next_proposal_id
    · rw [if_pos hk] at hp
      have h0 : countVotesFor s.votes pid false = 0 := by
        refine countVotesFor_eq_zero ?_ false
        intro e he
        rw [hk]
        exact hfresh e he
      rw [h0]
      cases hp
      rfl
    · rw [if_neg hk] at hp
      exact hInv.tally_no pid p hp
  · simpa using hmod

/-- vote preserves the invariant and never changes the allocation
counter. -/
theorem inv_vote {A : Type} [DecidableEq A] {s : GovernancePallet A}
    (hInv : Inv s) (v : A) (pid : Nat) (t : Bool) :
    Inv (vote s v pid t).2 ∧
    (vote s v pid t).2.next_proposal_id = s.next_proposal_id := by
  cases hl : lookupKV s.proposals pid with
  | none =>
    rw [vote_eq_notfound v t hl]
    exact ⟨hInv, rfl⟩
  | some p =>
    by_cases hs : p.status = ProposalStatus.Active
    · cases hd : lookupKV s.votes (v, pid) with
      | some b =>
        rw [vote_eq_dup t hl hs hd]
        exact ⟨hInv, rfl⟩
      | none =>
        rw [vote_eq_ok t hl hs hd]
        have hv := insertKV_of_lookup_none t hd
        refine ⟨⟨hInv.next_lt, ?_, ?_, ?_, ?_⟩, rfl⟩
        · intro pid2 q hq
          rw [lookupKV_insertKV] at hq
          by_cases hk : pid2 = pid
          · subst hk
            exact hInv.keys_lt pid2 p hl
          · rw [if_neg hk] at hq
            exact hInv.keys_lt pid2 q hq
        · intro v2 pid2 b hb
          rw [lookupKV_insertKV] at hb
          rw [lookupKV_insertKV]
          by_cases hk : pid2 = pid
          · exact ⟨_, by rw [if_pos hk]⟩
          · rw [if_neg hk]
            by_cases hk2 : ((v2, pid2) : A × Nat) = (v, pid)
            · exact absurd (congrArg Prod.snd hk2) hk
            · rw [if_neg hk2] at hb
              exact hInv.votes_ref v2 pid2 b hb
        · intro pid2 q hq
          rw [lookupKV_insertKV] at hq
          rw [hv, countVotesFor_append, countVotesFor_single]
          by_cases hk : pid2 = pid
          · subst hk
            rw [if_pos rfl] at hq
            have hyes := hInv.tally_yes pid2 p hl
            cases t with
            | true =>
              simp only [if_true] at hq
              cases hq
              simp only [and_self, if_pos]
              rw [hyes, Nat.mod_add_mod]
            | false =>
              rw [if_neg Bool.false_ne_true] at hq
              cases hq
              simp [hyes]
          · rw [if_neg hk] at hq
            have := hInv.tally_yes pid2 q hq
            have hne : ¬(pid = pid2 ∧ t = true) := by
              intro hcon
              exact hk hcon.1.symm
            rw [if_neg hne, Nat.add_zero]
            exact this
        · intro pid2 q hq
          rw [lookupKV_insertKV] at hq
          rw [hv, countVotesFor_append, countVotesFor_single]
          by_cases hk : pid2 = pid
          · subst hk
            rw [if_pos rfl] at hq
            have hno := hInv.tally_no pid2 p hl
            cases t with
            | true =>
              simp only [if_true] at hq
              cases hq
              simp [hno]
            | false =>
              rw [if_neg Bool.false_ne_true] at hq
              cases hq
              simp only [and_self, if_pos]
              rw [hno, Nat.mod_add_mod]
          · rw [if_neg hk] at hq
            have := hInv.tally_no pid2 q hq
            have hne : ¬(pid = pid2 ∧ t = false) := by
              intro hcon
              exact hk hcon.1.symm
            rw [if_neg hne, Nat.add_zero]
            exact this
    · rw [vote_eq_notactive v t hl hs]
      exact ⟨hInv, rfl⟩

/-- finalize_proposal preserves the invariant and never changes the
allocation counter. -/
theorem inv_finalize {A : Type} [DecidableEq A] {s : GovernancePallet A}
    (hInv : Inv s) (pid : Nat) :
    Inv (finalize_proposal s pid).2 ∧
    (finalize_proposal s pid).2.next_proposal_id = s.next_proposal_id := by
  cases hl : lookupKV s.proposals pid with
  | none =>
    rw [finalize_eq_notfound hl]
    exact ⟨hInv, rfl⟩
  | some p =>
    by_cases hs : p.status = ProposalStatus.Active
    · rw [finalize_eq_ok hl hs]
      refine ⟨⟨hInv.next_lt, ?_, ?_, ?_, ?_⟩, rfl⟩
      · intro pid2 q hq
        rw [lookupKV_insertKV] at hq
        by_cases hk : pid2 = pid
        · subst hk
          exact hInv.keys_lt pid2 p hl
        · rw [if_neg hk] at hq
          exact hInv.keys_lt pid2 q hq
      · intro v2 pid2 b hb
        obtain ⟨q, hq⟩ := hInv.votes_ref v2 pid2 b hb
        rw [lookupKV_insertKV]
        by_cases hk : pid2 = pid
        · exact ⟨_, by rw [if_pos hk]⟩
        · exact ⟨q, by rw [if_neg hk]; exact hq⟩
      · intro pid2 q hq
        rw [lookupKV_insertKV] at hq
        by_cases hk : pid2 = pid
        · subst hk
          rw [if_pos rfl] at hq
          cases hq
          exact hInv.tally_yes pid2 p hl
        · rw [if_neg hk] at hq
          exact hInv.tally_yes pid2 q hq
      · intro pid2 q hq
        rw [lookupKV_insertKV] at hq
        by_cases hk : pid2 = pid
        · subst hk
          rw [if_pos rfl] at hq
          cases hq
          exact hInv.tally_no pid2 p hl
        · rw [if_neg hk] at hq
          exact hInv.tally_no pid2 q hq
    · rw [finalize_eq_already hl hs]
      exact ⟨hInv, rfl⟩

/-- Running any call sequence with fewer create calls than fit below the
u32 bound preserves the invariant, and the allocation counter ends at its
start value plus the number of create calls. -/
theorem inv_run {A : Type} [DecidableEq A] (ops : List (Op A)) :
    ∀ s : GovernancePallet A, Inv s →
    s.next_proposal_id + countCreates ops < U32 →
    Inv (run s ops) ∧
    (run s ops).next_proposal_id = s.next_proposal_id + countCreates ops := by
  induction ops with
  | nil =>
    intro s h hb
    exact ⟨h, by simp [run_nil, countCreates]⟩
  | cons op rest ih =>
    intro s h hb
    rw [run_cons]
    cases op with
    | create c d =>
      have hcc : countCreates (Op.create c d :: rest) = countCreates rest + 1 := rfl
      rw [hcc] at hb
      have hlt : s.next_proposal_id + 1 < U32 := by omega
      obtain ⟨h1, h2⟩ := inv_create h hlt c d
      have hb2 : (create_proposal s c d).2.next_proposal_id + countCreates rest < U32 := by
        rw [h2]; omega
      obtain ⟨h3, h4⟩ := ih _ h1 hb2
      refine ⟨h3, ?_⟩
      rw [show applyOp s (Op.create c d) = (create_proposal s c d).2 from rfl] at *
      rw [h4, h2, hcc]
      omega
    | castVote v pid t =>
      have hcc : countCreates (Op.castVote v pid t :: rest) = countCreates rest := rfl
      rw [hcc] at hb
      obtain ⟨h1, h2⟩ := inv_vote h v pid t
      have hb2 : (vote s v pid t).2.next_proposal_id + countCreates rest < U32 := by
        rw [h2]; omega
      obtain ⟨h3, h4⟩ := ih _ h1 hb2
      refine ⟨h3, ?_⟩
      rw [show applyOp s (Op.castVote v pid t) = (vote s v pid t).2 from rfl] at *
      rw [h4, h2, hcc]
    | getProposal pid =>
      have hcc : countCreates (Op.getProposal pid :: rest) = countCreates rest := rfl
      rw [hcc] at hb
      obtain ⟨h3, h4⟩ := ih s h hb
      exact ⟨h3, by rw [show applyOp s (Op.getProposal pid) = s from rfl, h4, hcc]⟩
    | finalize pid =>
      have hcc : countCreates (Op.finalize pid :: rest) = countCreates rest := rfl
      rw [hcc] at hb
      obtain ⟨h1, h2⟩ := inv_finalize h pid
      have hb2 : (finalize_proposal s pid).2.next_proposal_id + countCreates rest < U32 := by
        rw [h2]; omega
      obtain ⟨h3, h4⟩ := ih _ h1 hb2
      refine ⟨h3, ?_⟩
      rw [show applyOp s (Op.finalize pid) = (finalize_proposal s pid).2 from rfl] at *
      rw [h4, h2, hcc]
    | getDetails pid =>
      have hcc : countCreates (Op.getDetails pid :: rest) = countCreates rest := rfl
      rw [hcc] at hb
      obtain ⟨h3, h4⟩ := ih s h hb
      exact ⟨h3, by rw [show applyOp s (Op.getDetails pid) = s from rfl, h4, hcc]⟩

/-- Invariant and counter value at any state reached with fewer than 2 ^ 32
create calls. -/
theorem inv_reachable_bounded {A : Type} [DecidableEq A]
    (ops : List (Op A)) (hc : countCreates ops < U32) :
    Inv (run (new : GovernancePallet A) ops) ∧
    (run (new : GovernancePallet A) ops).next_proposal_id = countCreates ops := by
  have h := inv_run ops new inv_new (by simpa [new] using hc)
  simpa [new] using h

/-- Call sequence of n identical create_proposal calls. -/
def createOps (n : Nat) : List (Op Nat) :=
  List.replicate n (Op.create 0 "d")

/-- Proposals map contents after n create calls from new: ids 0 to n - 1,
all records fresh. -/
def proposalEntries (n : Nat) : List (Nat × Proposal Nat) :=
  (List.range n).map (fun i =>
    (i, { description := "d", yes_votes := 0, no_votes := 0,
          status := ProposalStatus.Active, creator := 0 }))

/-- Lookup in the proposals map built by n create calls. -/
theorem lookup_proposalEntries : ∀ n k, lookupKV (proposalEntries n) k =
    if k < n then
      some { description := "d", yes_votes := 0, no_votes := 0,
             status := ProposalStatus.Active, creator := (0 : Nat) }
    else none := by
  intro n
  induction n with
  | zero =>
    intro k
    simp [proposalEntries, lookupKV]
  | succ n ih =>
    intro k
    have hsplit : proposalEntries (n + 1) = proposalEntries n ++
        [(n, { description := "d", yes_votes := 0, no_votes := 0,
               status := ProposalStatus.Active, creator := (0 : Nat) })] := by
      unfold proposalEntries
      rw [List.range_succ, List.map_append]
      rfl
    rw [hsplit]
    by_cases hk : k < n
    · rw [lookupKV_append_of_some _ (by rw [ih k, if_pos hk])]
      rw [if_pos (by omega)]
    · rw [lookupKV_append_of_none _ (by rw [ih k, if_neg hk])]
      by_cases he : k = n
      · subst he
        simp [lookupKV]
      · have : ¬ k < n + 1 := by omega
        rw [if_neg this]
        simp [lookupKV, he]

/-- Closed form of the state after n create calls from new. -/
theorem run_createOps : ∀ n, n ≤ U32 →
    run new (createOps n) =
      { proposals := proposalEntries n, votes := [],
        next_proposal_id := n % U32 } := by
  intro n
  induction n with
  | zero =>
    intro _
    simp [createOps, run_nil, new, proposalEntries]
  | succ n ih =>
    intro hle
    have hn : n < U32 := by omega
    have hsplit : createOps (n + 1) = createOps n ++ [Op.create 0 "d"] := by
      unfold createOps
      rw [List.replicate_succ']
    rw [hsplit, run_append, ih (by omega)]
    show applyOp _ (Op.create 0 "d") = _
    simp only [applyOp, create_eq]
    have hmod : n % U32 = n := Nat.mod_eq_of_lt hn
    have hnone : lookupKV (proposalEntries n) (n % U32) = none := by
      rw [hmod, lookup_proposalEntries, if_neg (by omega)]
    rw [insertKV_of_lookup_none _ hnone]
    have hprop : proposalEntries n ++
        [(n % U32, { description := "d", yes_votes := 0, no_votes := 0,
                     status := ProposalStatus.Active, creator := (0 : Nat) })] =
        proposalEntries (n + 1) := by
      rw [hmod]
      unfold proposalEntries
      rw [List.range_succ, List.map_append]
      rfl
    simp only [hprop]
    have : (n % U32 + 1) % U32 = (n + 1) % U32 := Nat.mod_add_mod n U32 1
    simp [this]

/-- Vote records after n distinct voters vote yes on proposal 0. -/
def voteEntries (n : Nat) : List ((Nat × Nat) × Bool) :=
  (List.range n).map (fun v => ((v, 0), true))

/-- Call sequence of n yes votes on proposal 0 by n distinct voters. -/
def voteOps (n : Nat) : List (Op Nat) :=
  (List.range n).map (fun v => Op.castVote v 0 true)

/-- State after one create call from new. -/
def sOne : GovernancePallet Nat :=
  { proposals := [(0, { description := "d", yes_votes := 0, no_votes := 0,
                        status := ProposalStatus.Active, creator := 0 })],
    votes := [], next_proposal_id := 1 }

/-- sOne is the state of a single create call. -/
theorem sOne_reachable : run new [Op.create 0 "d"] = sOne := by decide

/-- A voter index not below n has no record among the first n vote
records. -/
theorem lookup_voteEntries_none : ∀ n j, n ≤ j →
    lookupKV (voteEntries n) (j, 0) = none := by
  intro n
  induction n with
  | zero =>
    intro j _
    rfl
  | succ n ih =>
    intro j hj
    have hsplit : voteEntries (n + 1) = voteEntries n ++ [((n, 0), true)] := by
      unfold voteEntries
      rw [List.range_succ, List.map_append]
      rfl
    rw [hsplit, lookupKV_append_of_none _ (ih j (by omega))]
    have hne : ((j, 0) : Nat × Nat) ≠ (n, 0) := by
      intro h
      have := congrArg Prod.fst h
      simp at this
      omega
    simp [lookupKV, hne]

/-- Closed form of the state after n distinct yes votes on the single
proposal of sOne: the yes counter carries the vote count modulo 2 ^ 32. -/
theorem run_voteOps : ∀ n, n ≤ U32 →
    run sOne (voteOps n) =
      { proposals := [(0, { description := "d", yes_votes := n % U32,
                            no_votes := 0, status := ProposalStatus.Active,
                            creator := 0 })],
        votes := voteEntries n, next_proposal_id := 1 } := by
  intro n
  induction n with
  | zero =>
    intro _
    simp [voteOps, run_nil, sOne, voteEntries]
  | succ n ih =>
    intro hle
    have hn : n < U32 := by omega
    have hsplit : voteOps (n + 1) = voteOps n ++ [Op.castVote n 0 true] := by
      unfold voteOps
      rw [List.range_succ, List.map_append]
      rfl
    rw [hsplit, run_append, ih (by omega)]
    show applyOp _ (Op.castVote n 0 true) = _
    simp only [applyOp]
    have hl : lookupKV ([(0, (⟨"d", n % U32, 0, ProposalStatus.Active, 0⟩ : Proposal Nat))] : List (Nat × Proposal Nat)) 0 = some (⟨"d", n % U32, 0, ProposalStatus.Active, 0⟩ : Proposal Nat) := by
      simp [lookupKV]
    rw [vote_eq_ok true hl rfl (lookup_voteEntries_none n n (by omega))]
    rw [insertKV_of_lookup_none _ (lookup_voteEntries_none n n (by omega))]
    have hvotes : voteEntries n ++ [((n, 0), true)] = voteEntries (n + 1) := by
      unfold voteEntries
      rw [List.range_succ, List.map_append]
      rfl
    have hyes : (n % U32 + 1) % U32 = (n + 1) % U32 := Nat.mod_add_mod n U32 1
    rw [hvotes]
    simp [insertKV, hyes]

/-- All n vote records of voteEntries count for proposal 0. -/
theorem countVotes_voteEntries (n : Nat) : countVotes (voteEntries n) 0 = n := by
  unfold countVotes voteEntries
  rw [List.filter_eq_self.mpr]
  · simp
  · intro e he
    simp only [List.mem_map, List.mem_range] at he
    obtain ⟨v, _, rfl⟩ := he
    rfl

/-- Unconditional referential property: every vote record points at an
existing proposal. -/
def VotesRef {A : Type} [DecidableEq A] (s : GovernancePallet A) : Prop :=
  ∀ v pid b, lookupKV s.votes (v, pid) = some b →
    ∃ p, lookupKV s.proposals pid = some p

/-- Every single call preserves the referential property, with no side
condition: proposal map keys are never removed and votes are only recorded
on existing proposals. -/
theorem votesRef_applyOp {A : Type} [DecidableEq A] {s : GovernancePallet A}
    (h : VotesRef s) (op : Op A) : VotesRef (applyOp s op) := by
  cases op with
  | create c d =>
    intro v pid b hb
    simp only [applyOp, create_eq] at hb ⊢
    obtain ⟨p, hp⟩ := h v pid b hb
    rw [lookupKV_insertKV]
    by_cases hk : pid = s.next_proposal_id
    · exact ⟨_, by rw [if_pos hk]⟩
    · exact ⟨p, by rw [if_neg hk]; exact hp⟩
  | castVote v0 pid0 t =>
    intro v pid b hb
    simp only [applyOp] at hb ⊢
    cases hl : lookupKV s.proposals pid0 with
    | none =>
      rw [vote_eq_notfound v0 t hl] at hb ⊢
      exact h v pid b hb
    | some p0 =>
      by_cases hs : p0.status = ProposalStatus.Active
      · cases hd : lookupKV s.votes (v0, pid0) with
        | some b0 =>
          rw [vote_eq_dup t hl hs hd] at hb ⊢
          exact h v pid b hb
        | none =>
          rw [vote_eq_ok t hl hs hd] at hb ⊢
          rw [lookupKV_insertKV] at hb
          rw [lookupKV_insertKV]
          by_cases hk : pid = pid0
          · exact ⟨_, by rw [if_pos hk]⟩
          · rw [if_neg hk]
            by_cases hk2 : ((v, pid) : A × Nat) = (v0, pid0)
            · exact absurd (congrArg Prod.snd hk2) hk
            · rw [if_neg hk2] at hb
              exact h v pid b hb
      · rw [vote_eq_notactive v0 t hl hs] at hb ⊢
        exact h v pid b hb
  | getProposal pid0 =>
    exact h
  | finalize pid0 =>
    intro v pid b hb
    simp only [applyOp] at hb ⊢
    cases hl : lookupKV s.proposals pid0 with
    | none =>
      rw [finalize_eq_notfound hl] at hb ⊢
      exact h v pid b hb
    | some p0 =>
      by_cases hs : p0.status = ProposalStatus.Active
      · rw [finalize_eq_ok hl hs] at hb ⊢
        obtain ⟨p, hp⟩ := h v pid b hb
        rw [lookupKV_insertKV]
        by_cases hk : pid = pid0
        · exact ⟨_, by rw [if_pos hk]⟩
        · exact ⟨p, by rw [if_neg hk]; exact hp⟩
      · rw [finalize_eq_already hl hs] at hb ⊢
        exact h v pid b hb
  | getDetails pid0 =>
    exact h

/-- The referential property is preserved by whole call sequences. -/
theorem votesRef_run {A : Type} [DecidableEq A] (ops : List (Op A)) :
    ∀ s : GovernancePallet A, VotesRef s → VotesRef (run s ops) := by
  induction ops with
  | nil =>
    intro s h
    exact h
  | cons op rest ih =>
    intro s h
    rw [run_cons]
    exact ih _ (votesRef_applyOp h op)

/-- Every reachable state satisfies the referential property. -/
theorem votesRef_reachable {A : Type} [DecidableEq A]
    {s : GovernancePallet A} (h : Reachable s) : VotesRef s := by
  obtain ⟨ops, rfl⟩ := h
  refine votesRef_run ops new ?_
  intro v pid b hb
  simp [new, lookupKV] at hb

/-- A recorded vote persists, with its value, across any single call: vote
records are never modified or removed. -/
theorem votes_persist_applyOp {A : Type} [DecidableEq A]
    {s : GovernancePallet A} {k : A × Nat} {b : Bool}
    (h : lookupKV s.votes k = some b) (op : Op A) :
    lookupKV (applyOp s op).votes k = some b := by
  cases op with
  | create c d =>
    simpa only [applyOp, create_eq] using h
  | castVote v0 pid0 t =>
    simp only [applyOp]
    cases hl : lookupKV s.proposals pid0 with
    | none =>
      rw [vote_eq_notfound v0 t hl]
      exact h
    | some p0 =>
      by_cases hs : p0.status = ProposalStatus.Active
      · cases hd : lookupKV s.votes (v0, pid0) with
        | some b0 =>
          rw [vote_eq_dup t hl hs hd]
          exact h
        | none =>
          rw [vote_eq_ok t hl hs hd]
          rw [lookupKV_insertKV]
          have hk : k ≠ (v0, pid0) := by
            intro hEq
            rw [hEq, hd] at h
            cases h
          rw [if_neg hk]
          exact h
      · rw [vote_eq_notactive v0 t hl hs]
        exact h
  | getProposal pid0 =>
    exact h
  | finalize pid0 =>
    simp only [applyOp]
    cases hl : lookupKV s.proposals pid0 with
    | none =>
      rw [finalize_eq_notfound hl]
      exact h
    | some p0 =>
      by_cases hs : p0.status = ProposalStatus.Active
      · rw [finalize_eq_ok hl hs]
        exact h
      · rw [finalize_eq_already hl hs]
        exact h
  | getDetails pid0 =>
    exact h

/-- A recorded vote persists, with its value, across any call sequence. -/
theorem votes_persist_run {A : Type} [DecidableEq A] (ops : List (Op A)) :
    ∀ (s : GovernancePallet A) (k : A × Nat) (b : Bool),
    lookupKV s.votes k = some b →
    lookupKV (run s ops).votes k = some b := by
  induction ops with
  | nil =>
    intro s k b h
    exact h
  | cons op rest ih =>
    intro s k b h
    rw [run_cons]
    exact ih _ k b (votes_persist_applyOp h op)

/-- C3: on a proposal that exists with status Active, finalize_proposal
succeeds and returns Approved exactly when yes_votes > no_votes and
Rejected otherwise (ties and majority-no included), and the stored status
is mutated in place to exactly the returned value, all other fields
unchanged. -/
theorem C3_finalize_decision {A : Type} [DecidableEq A]
    (s : GovernancePallet A) (pid : Nat) (p : Proposal A)
    (hl : lookupKV s.proposals pid = some p)
    (ha : p.status = ProposalStatus.Active) :
    (finalize_proposal s pid).1 =
      Except.ok (if p.yes_votes > p.no_votes then ProposalStatus.Approved
                 else ProposalStatus.Rejected) ∧
    lookupKV (finalize_proposal s pid).2.proposals pid =
      some ({ p with status := if p.yes_votes > p.no_votes then ProposalStatus.Approved else ProposalStatus.Rejected }) := by
  rw [finalize_eq_ok hl ha]
  refine ⟨rfl, ?_⟩
  dsimp only
  rw [lookupKV_insertKV, if_pos rfl]

/-- Proposal state with two yes votes and one no vote recorded in the
counters. -/
def s21 : GovernancePallet Nat :=
  { proposals := [(0, { description := "d", yes_votes := 2, no_votes := 1,
                        status := ProposalStatus.Active, creator := 0 })],
    votes := [], next_proposal_id := 1 }

/-- Proposal state with a one-one tie in the counters. -/
def s11 : GovernancePallet Nat :=
  { proposals := [(0, { description := "d", yes_votes := 1, no_votes := 1,
                        status := ProposalStatus.Active, creator := 0 })],
    votes := [], next_proposal_id := 1 }

/-- Proposal state with no votes recorded in the counters. -/
def s00 : GovernancePallet Nat :=
  { proposals := [(0, { description := "d", yes_votes := 0, no_votes := 0,
                        status := ProposalStatus.Active, creator := 0 })],
    votes := [], next_proposal_id := 1 }

/-- Witness of C3: yes=2,no=1 finalizes to Approved; yes=1,no=1 and
yes=0,no=0 finalize to Rejected. -/
theorem C3_finalize_decision_witness :
    (finalize_proposal s21 0).1 = Except.ok ProposalStatus.Approved ∧
    (finalize_proposal s11 0).1 = Except.ok ProposalStatus.Rejected ∧
    (finalize_proposal s00 0).1 = Except.ok ProposalStatus.Rejected := by
  refine ⟨?_, ?_, ?_⟩
  · exact (C3_finalize_decision s21 0
      ⟨"d", 2, 1, ProposalStatus.Active, 0⟩ rfl rfl).1
  · exact (C3_finalize_decision s11 0
      ⟨"d", 1, 1, ProposalStatus.Active, 0⟩ rfl rfl).1
  · exact (C3_finalize_decision s00 0
      ⟨"d", 0, 0, ProposalStatus.Active, 0⟩ rfl rfl).1

/-- C7: atomicity on error: create_proposal never errors; whenever vote or
finalize_proposal returns an error the state is exactly the one before the
call; the two read operations never change the state. -/
theorem C7_error_atomicity {A : Type} [DecidableEq A] (s : GovernancePallet A) :
    (∀ (c : A) (d : String),
      (create_proposal s c d).1 = Except.ok s.next_proposal_id) ∧
    (∀ (v : A) (pid : Nat) (t : Bool) (e : String),
      (vote s v pid t).1 = Except.error e → (vote s v pid t).2 = s) ∧
    (∀ (pid : Nat) (e : String),
      (finalize_proposal s pid).1 = Except.error e →
      (finalize_proposal s pid).2 = s) ∧
    (∀ pid : Nat, applyOp s (Op.getProposal pid) = s) ∧
    (∀ pid : Nat, applyOp s (Op.getDetails pid) = s) := by
  refine ⟨fun c d => rfl, ?_, ?_, fun _ => rfl, fun _ => rfl⟩
  · intro v pid t e he
    cases hl : lookupKV s.proposals pid with
    | none => rw [vote_eq_notfound v t hl]
    | some p =>
      by_cases hst : p.status = ProposalStatus.Active
      · cases hd : lookupKV s.votes (v, pid) with
        | some b => rw [vote_eq_dup t hl hst hd]
        | none =>
          rw [vote_eq_ok t hl hst hd] at he
          simp at he
      · rw [vote_eq_notactive v t hl hst]
  · intro pid e he
    cases hl : lookupKV s.proposals pid with
    | none => rw [finalize_eq_notfound hl]
    | some p =>
      by_cases hst : p.status = ProposalStatus.Active
      · rw [finalize_eq_ok hl hst] at he
        simp at he
      · rw [finalize_eq_already hl hst]

/-- Witness of C7: a failing vote on the empty ledger leaves it unchanged. -/
theorem C7_error_atomicity_witness :
    (vote (new : GovernancePallet Nat) 0 0 true).2 = new :=
  (C7_error_atomicity (new : GovernancePallet Nat)).2.1 0 0 true
    ProposalNotFound rfl

/-- C2 (amended): vote checks its three preconditions in source order and
fails with ProposalNotFound, ProposalNotActive or DuplicateVote, leaving
the state untouched; on success it records the vote and increments the
matching counter modulo 2 ^ 32, leaving every other vote record, every
other proposal, the other fields of this proposal and the allocation
counter unchanged. -/
theorem C2_vote_spec {A : Type} [DecidableEq A] (s : GovernancePallet A)
    (v : A) (pid : Nat) (t : Bool) :
    (lookupKV s.proposals pid = none →
      vote s v pid t = (Except.error ProposalNotFound, s)) ∧
    (∀ p : Proposal A, lookupKV s.proposals pid = some p →
      p.status ≠ ProposalStatus.Active →
      vote s v pid t = (Except.error ProposalNotActive, s)) ∧
    (∀ (p : Proposal A) (b : Bool), lookupKV s.proposals pid = some p →
      p.status = ProposalStatus.Active →
      lookupKV s.votes (v, pid) = some b →
      vote s v pid t = (Except.error DuplicateVote, s)) ∧
    (∀ p : Proposal A, lookupKV s.proposals pid = some p →
      p.status = ProposalStatus.Active →
      lookupKV s.votes (v, pid) = none →
      (vote s v pid t).1 = Except.ok () ∧
      lookupKV (vote s v pid t).2.votes (v, pid) = some t ∧
      lookupKV (vote s v pid t).2.proposals pid = some (if t then { p with yes_votes := (p.yes_votes + 1) % U32 } else { p with no_votes := (p.no_votes + 1) % U32 }) ∧
      (∀ k : A × Nat, k ≠ (v, pid) →
        lookupKV (vote s v pid t).2.votes k = lookupKV s.votes k) ∧
      (∀ pid2 : Nat, pid2 ≠ pid →
        lookupKV (vote s v pid t).2.proposals pid2 = lookupKV s.proposals pid2) ∧
      (vote s v pid t).2.next_proposal_id = s.next_proposal_id) := by
  refine ⟨vote_eq_notfound v t, fun p hp hst => vote_eq_notactive v t hp hst,
    fun p b hp hst hd => vote_eq_dup t hp hst hd, ?_⟩
  intro p hp hst hd
  rw [vote_eq_ok t hp hst hd]
  dsimp only
  refine ⟨rfl, ?_, ?_, ?_, ?_, rfl⟩
  · rw [lookupKV_insertKV, if_pos rfl]
  · rw [lookupKV_insertKV, if_pos rfl]
  · intro k hk
    rw [lookupKV_insertKV, if_neg hk]
  · intro pid2 hk
    rw [lookupKV_insertKV, if_neg hk]

/-- Active proposal whose yes counter sits at the u32 maximum. -/
def sYesMax : GovernancePallet Nat :=
  { proposals := [(0, { description := "d", yes_votes := 4294967295,
                        no_votes := 0, status := ProposalStatus.Active,
                        creator := 0 })],
    votes := [], next_proposal_id := 1 }

/-- Counterexample to C2 as stated: at yes_votes = 2 ^ 32 - 1 a successful
yes vote stores 0, not the incremented value, because the u32 counter
wraps. -/
theorem C2_increment_wraps :
    (vote sYesMax 0 0 true).1 = Except.ok () ∧
    lookupKV (vote sYesMax 0 0 true).2.proposals 0 =
      some ⟨"d", 0, 0, ProposalStatus.Active, 0⟩ ∧
    (0 : Nat) ≠ 4294967295 + 1 := by
  refine ⟨rfl, by decide, by decide⟩

/-- Witness of C2 (amended): a successful vote on a fresh proposal stores a
yes counter of 1. -/
theorem C2_vote_spec_witness :
    (vote s00 1 0 true).1 = Except.ok () ∧
    lookupKV (vote s00 1 0 true).2.votes (1, 0) = some true := by
  have h := (C2_vote_spec s00 1 0 true).2.2.2
    ⟨"d", 0, 0, ProposalStatus.Active, 0⟩ rfl rfl rfl
  exact ⟨h.1, h.2.1⟩

/-- C5 (amended): create_proposal always succeeds, returns the current
next_proposal_id, stores a fresh Active proposal with zero counters under
that id, and advances the allocation counter by one modulo 2 ^ 32 — by
exactly one whenever the counter has not reached 2 ^ 32 - 1; on any run
from new with fewer than 2 ^ 32 create calls the allocated id equals the
number of earlier create calls, so the returned ids start at 0 and are
strictly increasing and unique. -/
theorem C5_create_spec {A : Type} [DecidableEq A] (s : GovernancePallet A)
    (c : A) (d : String) :
    (create_proposal s c d).1 = Except.ok s.next_proposal_id ∧
    lookupKV (create_proposal s c d).2.proposals s.next_proposal_id = some ({ description := d, yes_votes := 0, no_votes := 0, status := ProposalStatus.Active, creator := c }) ∧
    (create_proposal s c d).2.next_proposal_id = (s.next_proposal_id + 1) % U32 ∧
    (s.next_proposal_id + 1 < U32 →
      (create_proposal s c d).2.next_proposal_id = s.next_proposal_id + 1) ∧
    (∀ ops : List (Op A), countCreates ops < U32 → run new ops = s →
      s.next_proposal_id = countCreates ops) := by
  refine ⟨rfl, ?_, rfl, fun h => Nat.mod_eq_of_lt h, ?_⟩
  · rw [create_eq]
    dsimp only
    rw [lookupKV_insertKV, if_pos rfl]
  · intro ops hc hrun
    have h := (inv_reachable_bounded ops hc).2
    rw [hrun] at h
    exact h

/-- Empty ledger whose allocation counter sits at the u32 maximum. -/
def sIdMax : GovernancePallet Nat :=
  { proposals := [], votes := [], next_proposal_id := 4294967295 }

/-- Counterexample to C5 as stated: at next_proposal_id = 2 ^ 32 - 1,
create_proposal sets the counter to 0 instead of incrementing it by
exactly 1. -/
theorem C5_id_increment_wraps :
    (create_proposal sIdMax 0 "d").2.next_proposal_id = 0 ∧
    (create_proposal sIdMax 0 "d").2.next_proposal_id ≠
      sIdMax.next_proposal_id + 1 := by
  refine ⟨by decide, by decide⟩

/-- Witness of C5 (amended): the first create call on the fresh ledger
returns id 0, stores the proposal there, and moves the counter to 1. -/
theorem C5_create_spec_witness :
    (create_proposal (new : GovernancePallet Nat) 7 "d").1 = Except.ok 0 ∧
    lookupKV (create_proposal (new : GovernancePallet Nat) 7 "d").2.proposals 0 = some ({ description := "d", yes_votes := 0, no_votes := 0, status := ProposalStatus.Active, creator := 7 }) ∧
    (create_proposal (new : GovernancePallet Nat) 7 "d").2.next_proposal_id = 1 ∧
    (new : GovernancePallet Nat).next_proposal_id = countCreates ([] : List (Op Nat)) := by
  have h := C5_create_spec (new : GovernancePallet Nat) 7 "d"
  exact ⟨h.1, h.2.1, h.2.2.2.1 (by decide), h.2.2.2.2 [] (by decide) rfl⟩

/-- C10: the u32 counters advance by exactly one below 2 ^ 32 - 1 and wrap
to 0 at 2 ^ 32 - 1, both for the allocation counter of create_proposal and
for the vote counters of vote; under fewer than 2 ^ 32 create calls the
allocation counter equals the number of create calls, giving the strictly
increasing ids of the spec. -/
theorem C10_u32_overflow {A : Type} [DecidableEq A] :
    (∀ (s : GovernancePallet A) (c : A) (d : String),
      s.next_proposal_id + 1 < U32 →
      (create_proposal s c d).2.next_proposal_id = s.next_proposal_id + 1) ∧
    (∀ (s : GovernancePallet A) (c : A) (d : String),
      s.next_proposal_id = U32 - 1 →
      (create_proposal s c d).2.next_proposal_id = 0) ∧
    (∀ ops : List (Op A), countCreates ops < U32 →
      (run new ops).next_proposal_id = countCreates ops) ∧
    (∀ (s : GovernancePallet A) (v : A) (pid : Nat) (p : Proposal A) (t : Bool),
      lookupKV s.proposals pid = some p → p.status = ProposalStatus.Active →
      lookupKV s.votes (v, pid) = none →
      lookupKV (vote s v pid t).2.proposals pid = some (if t then { p with yes_votes := (p.yes_votes + 1) % U32 } else { p with no_votes := (p.no_votes + 1) % U32 })) ∧
    (∀ (s : GovernancePallet A) (v : A) (pid : Nat) (p : Proposal A),
      lookupKV s.proposals pid = some p → p.status = ProposalStatus.Active →
      lookupKV s.votes (v, pid) = none → p.yes_votes = U32 - 1 →
      lookupKV (vote s v pid true).2.proposals pid = some ({ p with yes_votes := 0 })) ∧
    (∀ (s : GovernancePallet A) (v : A) (pid : Nat) (p : Proposal A),
      lookupKV s.proposals pid = some p → p.status = ProposalStatus.Active →
      lookupKV s.votes (v, pid) = none → p.yes_votes + 1 < U32 →
      lookupKV (vote s v pid true).2.proposals pid = some ({ p with yes_votes := p.yes_votes + 1 })) := by
  have hok : ∀ (s : GovernancePallet A) (v : A) (pid : Nat) (p : Proposal A)
      (t : Bool), lookupKV s.proposals pid = some p →
      p.status = ProposalStatus.Active →
      lookupKV s.votes (v, pid) = none →
      lookupKV (vote s v pid t).2.proposals pid = some (if t then { p with yes_votes := (p.yes_votes + 1) % U32 } else { p with no_votes := (p.no_votes + 1) % U32 }) := by
    intro s v pid p t hp hst hd
    rw [vote_eq_ok t hp hst hd]
    dsimp only
    rw [lookupKV_insertKV, if_pos rfl]
  refine ⟨?_, ?_, ?_, hok, ?_, ?_⟩
  · intro s c d h
    exact Nat.mod_eq_of_lt h
  · intro s c d h
    rw [create_eq]
    dsimp only
    rw [h]
    decide
  · intro ops hc
    exact (inv_reachable_bounded ops hc).2
  · intro s v pid p hp hst hd hmax
    have h := hok s v pid p true hp hst hd
    rw [if_pos rfl] at h
    rw [hmax] at h
    have : (U32 - 1 + 1) % U32 = 0 := by decide
    rw [this] at h
    exact h
  · intro s v pid p hp hst hd hlt
    have h := hok s v pid p true hp hst hd
    rw [if_pos rfl] at h
    rw [Nat.mod_eq_of_lt hlt] at h
    exact h

/-- Witness of C10: the exact increment on a fresh ledger and the wrap of
both counters at the u32 maximum, on concrete states. -/
theorem C10_u32_overflow_witness :
    (create_proposal (new : GovernancePallet Nat) 0 "d").2.next_proposal_id = 0 + 1 ∧
    (create_proposal sIdMax 0 "d").2.next_proposal_id = 0 ∧
    lookupKV (vote sYesMax 0 0 true).2.proposals 0 = some ({ (⟨"d", 4294967295, 0, ProposalStatus.Active, 0⟩ : Proposal Nat) with yes_votes := 0 }) := by
  have h := @C10_u32_overflow Nat _
  refine ⟨h.1 new 0 "d" (by decide), h.2.1 sIdMax 0 "d" (by decide), ?_⟩
  exact h.2.2.2.2.1 sYesMax 0 0
    ⟨"d", 4294967295, 0, ProposalStatus.Active, 0⟩ rfl rfl rfl (by decide)

/-- Counterexample to C9 as stated: after exactly 2 ^ 32 create calls the
allocation counter has wrapped to 0, so the reachable state holds proposal
id 0 while the bound 0 < next_proposal_id fails. -/
theorem C9_key_bound_breaks_at_wraparound :
    Reachable (run new (createOps U32)) ∧
    lookupKV (run new (createOps U32)).proposals 0 =
      some ⟨"d", 0, 0, ProposalStatus.Active, 0⟩ ∧
    (run new (createOps U32)).next_proposal_id = 0 ∧
    ¬ 0 < (run new (createOps U32)).next_proposal_id := by
  have h := run_createOps U32 (le_refl U32)
  refine ⟨⟨createOps U32, rfl⟩, ?_, ?_, ?_⟩
  · rw [h]
    dsimp only
    rw [lookup_proposalEntries, if_pos (by decide)]
  · rw [h]
    exact Nat.mod_self U32
  · rw [h]
    dsimp only
    rw [Nat.mod_self]
    omega

/-- C9 (amended): in every reachable state every vote record points at an
existing proposal, unconditionally; and on every run from new with fewer
than 2 ^ 32 create calls every proposal id is strictly below
next_proposal_id and the next id is unallocated, so create_proposal never
overwrites an existing proposal. -/
theorem C9_referential_invariant {A : Type} [DecidableEq A] :
    (∀ s : GovernancePallet A, Reachable s → ∀ (v : A) (pid : Nat) (b : Bool),
      lookupKV s.votes (v, pid) = some b →
      ∃ p, lookupKV s.proposals pid = some p) ∧
    (∀ ops : List (Op A), countCreates ops < U32 →
      (∀ (pid : Nat) (p : Proposal A),
        lookupKV (run new ops).proposals pid = some p →
        pid < (run new ops).next_proposal_id) ∧
      lookupKV (run new ops).proposals (run new ops).next_proposal_id = none) := by
  constructor
  · intro s hs
    exact votesRef_reachable hs
  · intro ops hc
    have h := (inv_reachable_bounded ops hc).1
    exact ⟨h.keys_lt, inv_next_unallocated h⟩

/-- Witness of C9 (amended): a vote record on a two-call run points at an
existing proposal, and on a one-create run the single id 0 is below the
counter 1. -/
theorem C9_referential_invariant_witness :
    (∃ p : Proposal Nat, lookupKV (run (new : GovernancePallet Nat)
      [Op.create 0 "d", Op.castVote 1 0 true]).proposals 0 = some p) ∧
    (0 : Nat) < (run (new : GovernancePallet Nat) [Op.create 0 "d"]).next_proposal_id := by
  constructor
  · exact (@C9_referential_invariant Nat _).1 _
      ⟨[Op.create 0 "d", Op.castVote 1 0 true], rfl⟩ 1 0 true rfl
  · exact ((@C9_referential_invariant Nat _).2 [Op.create 0 "d"] (by decide)).1 0
      ⟨"d", 0, 0, ProposalStatus.Active, 0⟩ rfl

/-- Single-step status lemma: on any state whose next_proposal_id is
unallocated, one call changes the status of a stored proposal only from
Active to Approved or Rejected and only when the call is finalize_proposal
of that very id. -/
theorem status_step {A : Type} [DecidableEq A] (s : GovernancePallet A)
    (hfresh : lookupKV s.proposals s.next_proposal_id = none)
    (op : Op A) (pid : Nat) (p q : Proposal A)
    (hp : lookupKV s.proposals pid = some p)
    (hq : lookupKV (applyOp s op).proposals pid = some q) :
    q.status = p.status ∨
    (p.status = ProposalStatus.Active ∧ op = Op.finalize pid ∧
      (q.status = ProposalStatus.Approved ∨ q.status = ProposalStatus.Rejected)) := by
  cases op with
  | create c d =>
    left
    rw [show applyOp s (Op.create c d) = (create_proposal s c d).2 from rfl,
      create_eq] at hq
    dsimp only at hq
    rw [lookupKV_insertKV] at hq
    by_cases hk : pid = s.next_proposal_id
    · rw [hk, hfresh] at hp
      cases hp
    · rw [if_neg hk, hp] at hq
      cases hq
      rfl
  | castVote v0 pid0 t =>
    left
    rw [show applyOp s (Op.castVote v0 pid0 t) = (vote s v0 pid0 t).2 from rfl] at hq
    cases hl : lookupKV s.proposals pid0 with
    | none =>
      rw [vote_eq_notfound v0 t hl] at hq
      dsimp only at hq
      rw [hp] at hq
      cases hq
      rfl
    | some p0 =>
      by_cases hst : p0.status = ProposalStatus.Active
      · cases hd : lookupKV s.votes (v0, pid0) with
        | some b =>
          rw [vote_eq_dup t hl hst hd] at hq
          dsimp only at hq
          rw [hp] at hq
          cases hq
          rfl
        | none =>
          rw [vote_eq_ok t hl hst hd] at hq
          dsimp only at hq
          rw [lookupKV_insertKV] at hq
          by_cases hk : pid = pid0
          · subst hk
            rw [if_pos rfl] at hq
            rw [hp] at hl
            cases hl
            cases hq
            cases t <;> rfl
          · rw [if_neg hk, hp] at hq
            cases hq
            rfl
      · rw [vote_eq_notactive v0 t hl hst] at hq
        dsimp only at hq
        rw [hp] at hq
        cases hq
        rfl
  | getProposal pid0 =>
    left
    rw [show applyOp s (Op.getProposal pid0) = s from rfl, hp] at hq
    cases hq
    rfl
  | finalize pid0 =>
    rw [show applyOp s (Op.finalize pid0) = (finalize_proposal s pid0).2 from rfl] at hq
    cases hl : lookupKV s.proposals pid0 with
    | none =>
      left
      rw [finalize_eq_notfound hl] at hq
      dsimp only at hq
      rw [hp] at hq
      cases hq
      rfl
    | some p0 =>
      by_cases hst : p0.status = ProposalStatus.Active
      · rw [finalize_eq_ok hl hst] at hq
        dsimp only at hq
        rw [lookupKV_insertKV] at hq
        by_cases hk : pid = pid0
        · subst hk
          rw [if_pos rfl] at hq
          rw [hp] at hl
          cases hl
          cases hq
          right
          refine ⟨hst, rfl, ?_⟩
          by_cases hY : p.yes_votes > p.no_votes
          · left
            show (if p.yes_votes > p.no_votes then ProposalStatus.Approved
              else ProposalStatus.Rejected) = ProposalStatus.Approved
            rw [if_pos hY]
          · right
            show (if p.yes_votes > p.no_votes then ProposalStatus.Approved
              else ProposalStatus.Rejected) = ProposalStatus.Rejected
            rw [if_neg hY]
        · rw [if_neg hk, hp] at hq
          cases hq
          left
          rfl
      · left
        rw [finalize_eq_already hl hst] at hq
        dsimp only at hq
        rw [hp] at hq
        cases hq
        rfl
  | getDetails pid0 =>
    left
    rw [show applyOp s (Op.getDetails pid0) = s from rfl, hp] at hq
    cases hq
    rfl

/-- C8 (amended): on any state whose next_proposal_id is unallocated (true
of every state reachable with fewer than 2 ^ 32 create calls), a single
call changes the status of a stored proposal only from Active to Approved
or Rejected and only when the call is finalize_proposal of that very id;
in particular votes and reads never change any status and no call leaves a
terminal status. -/
theorem C8_status_machine {A : Type} [DecidableEq A] (s : GovernancePallet A)
    (hfresh : lookupKV s.proposals s.next_proposal_id = none)
    (op : Op A) (pid : Nat) (p q : Proposal A)
    (hp : lookupKV s.proposals pid = some p)
    (hq : lookupKV (applyOp s op).proposals pid = some q) :
    q.status = p.status ∨
    (p.status = ProposalStatus.Active ∧ op = Op.finalize pid ∧
      (q.status = ProposalStatus.Approved ∨ q.status = ProposalStatus.Rejected)) :=
  status_step s hfresh op pid p q hp hq

/-- Call sequence that wraps the allocation counter and then finalizes
proposal 0 to Rejected. -/
def opsWrapFinalize : List (Op Nat) := createOps U32 ++ [Op.finalize 0]

/-- Closed form of the state after n create calls followed by a finalize
of proposal 0: the proposal is Rejected (no votes were cast). -/
theorem run_createOps_finalize (n : Nat) (h0 : 0 < n) (hle : n ≤ U32) :
    run new (createOps n ++ [Op.finalize 0]) =
      { proposals := insertKV (proposalEntries n) 0 (⟨"d", 0, 0, ProposalStatus.Rejected, 0⟩ : Proposal Nat),
        votes := [], next_proposal_id := n % U32 } := by
  rw [run_append, run_createOps n hle]
  show applyOp _ (Op.finalize 0) = _
  simp only [applyOp]
  have hl : lookupKV (proposalEntries n) 0 =
      some (⟨"d", 0, 0, ProposalStatus.Active, 0⟩ : Proposal Nat) := by
    rw [lookup_proposalEntries, if_pos h0]
  rw [finalize_eq_ok hl rfl]
  dsimp only
  rw [if_neg (lt_irrefl 0)]

/-- Counterexample to C8 as stated: in the reachable state after 2 ^ 32
create calls and one finalize, proposal 0 has terminal status Rejected,
yet one more create call overwrites it and its stored status goes back to
Active — a transition out of a terminal status. -/
theorem C8_terminal_status_reactivated :
    Reachable (run new opsWrapFinalize) ∧
    (∃ p : Proposal Nat, lookupKV (run new opsWrapFinalize).proposals 0 =
      some p ∧ p.status = ProposalStatus.Rejected) ∧
    (∃ q : Proposal Nat, lookupKV (applyOp (run new opsWrapFinalize)
      (Op.create 0 "e")).proposals 0 = some q ∧
      q.status = ProposalStatus.Active) := by
  have hrun := run_createOps_finalize U32 (by decide) (le_refl U32)
  rw [Nat.mod_self] at hrun
  rw [show opsWrapFinalize = createOps U32 ++ [Op.finalize 0] from rfl]
  refine ⟨⟨createOps U32 ++ [Op.finalize 0], rfl⟩, ?_, ?_⟩
  · refine ⟨⟨"d", 0, 0, ProposalStatus.Rejected, 0⟩, ?_, rfl⟩
    rw [hrun]
    dsimp only
    rw [lookupKV_insertKV, if_pos rfl]
  · refine ⟨⟨"e", 0, 0, ProposalStatus.Active, 0⟩, ?_, rfl⟩
    rw [hrun]
    rw [show applyOp ({ proposals := insertKV (proposalEntries U32) 0 (⟨"d", 0, 0, ProposalStatus.Rejected, 0⟩ : Proposal Nat), votes := [], next_proposal_id := 0 } : GovernancePallet Nat) (Op.create 0 "e") = (create_proposal ({ proposals := insertKV (proposalEntries U32) 0 (⟨"d", 0, 0, ProposalStatus.Rejected, 0⟩ : Proposal Nat), votes := [], next_proposal_id := 0 } : GovernancePallet Nat) 0 "e").2 from rfl, create_eq]
    dsimp only
    rw [lookupKV_insertKV, if_pos rfl]

/-- Witness of C8 (amended): finalizing the Active 2-1 proposal takes its
status from Active to Approved, matching the right disjunct. -/
theorem C8_status_machine_witness :
    (⟨"d", 2, 1, ProposalStatus.Approved, 0⟩ : Proposal Nat).status =
      (⟨"d", 2, 1, ProposalStatus.Active, 0⟩ : Proposal Nat).status ∨
    ((⟨"d", 2, 1, ProposalStatus.Active, 0⟩ : Proposal Nat).status =
        ProposalStatus.Active ∧
      (Op.finalize 0 : Op Nat) = Op.finalize 0 ∧
      ((⟨"d", 2, 1, ProposalStatus.Approved, 0⟩ : Proposal Nat).status =
          ProposalStatus.Approved ∨
       (⟨"d", 2, 1, ProposalStatus.Approved, 0⟩ : Proposal Nat).status =
          ProposalStatus.Rejected)) :=
  C8_status_machine s21 rfl (Op.finalize 0) 0
    ⟨"d", 2, 1, ProposalStatus.Active, 0⟩
    ⟨"d", 2, 1, ProposalStatus.Approved, 0⟩ rfl (by decide)

/-- A stored proposal id keeps some record across any single call: the
proposals map only ever gains or replaces entries, it never drops a
key. -/
theorem proposals_persist_applyOp {A : Type} [DecidableEq A]
    {s : GovernancePallet A} {pid : Nat} {p : Proposal A}
    (hp : lookupKV s.proposals pid = some p) (op : Op A) :
    ∃ q, lookupKV (applyOp s op).proposals pid = some q := by
  cases op with
  | create c d =>
    rw [show applyOp s (Op.create c d) = (create_proposal s c d).2 from rfl,
      create_eq]
    dsimp only
    rw [lookupKV_insertKV]
    by_cases hk : pid = s.next_proposal_id
    · exact ⟨_, by rw [if_pos hk]⟩
    · exact ⟨p, by rw [if_neg hk]; exact hp⟩
  | castVote v0 pid0 t =>
    rw [show applyOp s (Op.castVote v0 pid0 t) = (vote s v0 pid0 t).2 from rfl]
    cases hl : lookupKV s.proposals pid0 with
    | none =>
      rw [vote_eq_notfound v0 t hl]
      exact ⟨p, hp⟩
    | some p0 =>
      by_cases hst : p0.status = ProposalStatus.Active
      · cases hd : lookupKV s.votes (v0, pid0) with
        | some b =>
          rw [vote_eq_dup t hl hst hd]
          exact ⟨p, hp⟩
        | none =>
          rw [vote_eq_ok t hl hst hd]
          dsimp only
          rw [lookupKV_insertKV]
          by_cases hk : pid = pid0
          · exact ⟨_, by rw [if_pos hk]⟩
          · exact ⟨p, by rw [if_neg hk]; exact hp⟩
      · rw [vote_eq_notactive v0 t hl hst]
        exact ⟨p, hp⟩
  | getProposal pid0 =>
    exact ⟨p, hp⟩
  | finalize pid0 =>
    rw [show applyOp s (Op.finalize pid0) = (finalize_proposal s pid0).2 from rfl]
    cases hl : lookupKV s.proposals pid0 with
    | none =>
      rw [finalize_eq_notfound hl]
      exact ⟨p, hp⟩
    | some p0 =>
      by_cases hst : p0.status = ProposalStatus.Active
      · rw [finalize_eq_ok hl hst]
        dsimp only
        rw [lookupKV_insertKV]
        by_cases hk : pid = pid0
        · exact ⟨_, by rw [if_pos hk]⟩
        · exact ⟨p, by rw [if_neg hk]; exact hp⟩
      · rw [finalize_eq_already hl hst]
        exact ⟨p, hp⟩
  | getDetails pid0 =>
    exact ⟨p, hp⟩

/-- A non-Active status persists across any call sequence whose create
calls stay below the u32 bound: statuses only ever move out of Active, and
no fresh create can overwrite the proposal while the allocation counter
has not wrapped. -/
theorem status_terminal_persists {A : Type} [DecidableEq A]
    (ops : List (Op A)) :
    ∀ s : GovernancePallet A, Inv s →
    s.next_proposal_id + countCreates ops < U32 →
    ∀ (pid : Nat) (p : Proposal A), lookupKV s.proposals pid = some p →
    p.status ≠ ProposalStatus.Active →
    ∃ q, lookupKV (run s ops).proposals pid = some q ∧
      q.status = p.status := by
  induction ops with
  | nil =>
    intro s _ _ pid p hp _
    exact ⟨p, hp, rfl⟩
  | cons op rest ih =>
    intro s hInv hb pid p hp hactp
    rw [run_cons]
    have hfresh := inv_next_unallocated hInv
    obtain ⟨q, hq⟩ := proposals_persist_applyOp hp op
    have hqs : q.status = p.status := by
      rcases status_step s hfresh op pid p q hp hq with h | h
      · exact h
      · exact absurd h.1 hactp
    have hqact : q.status ≠ ProposalStatus.Active := by
      rw [hqs]
      exact hactp
    cases op with
    | create c d =>
      have hcc : countCreates (Op.create c d :: rest) = countCreates rest + 1 := rfl
      rw [hcc] at hb
      obtain ⟨hInv2, hnext⟩ := inv_create hInv (by omega) c d
      obtain ⟨r, hr, hrs⟩ := ih _ hInv2 (by rw [hnext]; omega) pid q hq hqact
      exact ⟨r, hr, by rw [hrs, hqs]⟩
    | castVote v0 pid0 t =>
      have hcc : countCreates (Op.castVote v0 pid0 t :: rest) = countCreates rest := rfl
      rw [hcc] at hb
      obtain ⟨hInv2, hnext⟩ := inv_vote hInv v0 pid0 t
      obtain ⟨r, hr, hrs⟩ := ih _ hInv2 (by rw [hnext]; omega) pid q hq hqact
      exact ⟨r, hr, by rw [hrs, hqs]⟩
    | getProposal pid0 =>
      have hcc : countCreates (Op.getProposal pid0 :: rest) = countCreates rest := rfl
      rw [hcc] at hb
      obtain ⟨r, hr, hrs⟩ := ih s hInv hb pid q hq hqact
      exact ⟨r, hr, by rw [hrs, hqs]⟩
    | finalize pid0 =>
      have hcc : countCreates (Op.finalize pid0 :: rest) = countCreates rest := rfl
      rw [hcc] at hb
      obtain ⟨hInv2, hnext⟩ := inv_finalize hInv pid0
      obtain ⟨r, hr, hrs⟩ := ih _ hInv2 (by rw [hnext]; omega) pid q hq hqact
      exact ⟨r, hr, by rw [hrs, hqs]⟩
    | getDetails pid0 =>
      have hcc : countCreates (Op.getDetails pid0 :: rest) = countCreates rest := rfl
      rw [hcc] at hb
      obtain ⟨r, hr, hrs⟩ := ih s hInv hb pid q hq hqact
      exact ⟨r, hr, by rw [hrs, hqs]⟩

/-- C6 (amended): finalize_proposal fails with ProposalNotFound on an
absent id and with AlreadyFinalized on a non-Active proposal, leaving the
state untouched; after a successful finalize of a proposal in a reachable
state, every later finalize_proposal call on it — after any further call
sequence — fails with AlreadyFinalized and changes nothing, as long as
fewer than 2 ^ 32 proposals are created over the whole run (otherwise the
wrapped allocation counter lets a create overwrite the finalized
proposal). -/
theorem C6_finalize_errors {A : Type} [DecidableEq A]
    (s : GovernancePallet A) (pid : Nat) :
    (lookupKV s.proposals pid = none →
      finalize_proposal s pid = (Except.error ProposalNotFound, s)) ∧
    (∀ p : Proposal A, lookupKV s.proposals pid = some p →
      p.status ≠ ProposalStatus.Active →
      finalize_proposal s pid = (Except.error AlreadyFinalized, s)) ∧
    (∀ p : Proposal A, lookupKV s.proposals pid = some p →
      p.status = ProposalStatus.Active →
      finalize_proposal (finalize_proposal s pid).2 pid =
        (Except.error AlreadyFinalized, (finalize_proposal s pid).2)) ∧
    (∀ (ops1 ops2 : List (Op A)) (p : Proposal A),
      countCreates ops1 + countCreates ops2 < U32 →
      lookupKV (run new ops1).proposals pid = some p →
      p.status = ProposalStatus.Active →
      finalize_proposal (run (applyOp (run new ops1) (Op.finalize pid)) ops2) pid =
        (Except.error AlreadyFinalized,
         run (applyOp (run new ops1) (Op.finalize pid)) ops2)) := by
  refine ⟨finalize_eq_notfound, fun p hp hs => finalize_eq_already hp hs, ?_, ?_⟩
  · intro p hp hs
    have hs2 : (finalize_proposal s pid).2 = { s with proposals := insertKV s.proposals pid ({ p with status := if p.yes_votes > p.no_votes then ProposalStatus.Approved else ProposalStatus.Rejected }) } := by
      rw [finalize_eq_ok hp hs]
    rw [hs2]
    apply finalize_eq_already
    · rw [lookupKV_insertKV, if_pos rfl]
    · show ¬ (if p.yes_votes > p.no_votes then ProposalStatus.Approved
          else ProposalStatus.Rejected) = ProposalStatus.Active
      by_cases hY : p.yes_votes > p.no_votes <;> simp [hY]
  · intro ops1 ops2 p hcsum hp hact
    have hc1 : countCreates ops1 < U32 := by omega
    obtain ⟨hInv1, hnext1⟩ := inv_reachable_bounded ops1 hc1
    have hterm : ¬ (if p.yes_votes > p.no_votes then ProposalStatus.Approved
        else ProposalStatus.Rejected) = ProposalStatus.Active := by
      by_cases hY : p.yes_votes > p.no_votes <;> simp [hY]
    have hp2 : lookupKV (applyOp (run new ops1) (Op.finalize pid)).proposals pid = some ({ p with status := if p.yes_votes > p.no_votes then ProposalStatus.Approved else ProposalStatus.Rejected }) := by
      rw [show applyOp (run new ops1) (Op.finalize pid) = (finalize_proposal (run new ops1) pid).2 from rfl]
      rw [finalize_eq_ok hp hact]
      dsimp only
      rw [lookupKV_insertKV, if_pos rfl]
    have hInv2 : Inv (applyOp (run new ops1) (Op.finalize pid)) :=
      (inv_finalize hInv1 pid).1
    have hnext2 : (applyOp (run new ops1) (Op.finalize pid)).next_proposal_id = countCreates ops1 := by
      rw [show applyOp (run new ops1) (Op.finalize pid) = (finalize_proposal (run new ops1) pid).2 from rfl,
        (inv_finalize hInv1 pid).2, hnext1]
    obtain ⟨q, hq, hqs⟩ := status_terminal_persists ops2 _ hInv2
      (by rw [hnext2]; omega) pid _ hp2 (by exact hterm)
    refine finalize_eq_already hq ?_
    rw [hqs]
    exact hterm

/-- Witness of C6 (amended): the not-found error on the fresh ledger, the
immediately repeated finalize, and a later finalize separated by an
intervening create call, all at concrete states. -/
theorem C6_finalize_errors_witness :
    finalize_proposal (new : GovernancePallet Nat) 0 =
      (Except.error ProposalNotFound, new) ∧
    finalize_proposal (finalize_proposal s21 0).2 0 =
      (Except.error AlreadyFinalized, (finalize_proposal s21 0).2) ∧
    finalize_proposal (run (applyOp (run new [Op.create 0 "d"]) (Op.finalize 0)) [Op.create 1 "x"]) 0 =
      (Except.error AlreadyFinalized,
       run (applyOp (run new [Op.create 0 "d"]) (Op.finalize 0)) [Op.create 1 "x"]) := by
  refine ⟨(C6_finalize_errors (new : GovernancePallet Nat) 0).1 rfl, ?_, ?_⟩
  · exact (C6_finalize_errors s21 0).2.2.1
      ⟨"d", 2, 1, ProposalStatus.Active, 0⟩ rfl rfl
  · exact (C6_finalize_errors (new : GovernancePallet Nat) 0).2.2.2
      [Op.create 0 "d"] [Op.create 1 "x"]
      ⟨"d", 0, 0, ProposalStatus.Active, 0⟩ (by decide) (by decide) rfl

/-- Finalize of a stored zero-or-minority-yes Active proposal returns
Rejected, stated over abstract state components so that it can be
instantiated on large literal states without unfolding them. -/
theorem finalize_head_rejected {A : Type} [DecidableEq A]
    (pr : List (Nat × Proposal A)) (vt : List ((A × Nat) × Bool))
    (nn pid : Nat) (p : Proposal A) (hl : lookupKV pr pid = some p)
    (hs : p.status = ProposalStatus.Active)
    (hz : ¬ p.yes_votes > p.no_votes) :
    (finalize_proposal ({ proposals := pr, votes := vt, next_proposal_id := nn } : GovernancePallet A) pid).1 = Except.ok ProposalStatus.Rejected := by
  have hl2 : lookupKV ({ proposals := pr, votes := vt, next_proposal_id := nn } : GovernancePallet A).proposals pid = some p := hl
  rw [finalize_eq_ok hl2 hs]
  dsimp only
  rw [if_neg hz]

/-- After n create calls (0 < n ≤ 2 ^ 32) the finalize of proposal 0
succeeds and returns Rejected. -/
theorem finalize_after_createOps (n : Nat) (h0 : 0 < n) (hle : n ≤ U32) :
    (finalize_proposal (run new (createOps n)) 0).1 =
      Except.ok ProposalStatus.Rejected := by
  rw [run_createOps n hle]
  exact finalize_head_rejected (proposalEntries n) [] (n % U32) 0
    (⟨"d", 0, 0, ProposalStatus.Active, 0⟩ : Proposal Nat)
    (by rw [lookup_proposalEntries, if_pos h0]) rfl (by decide)

/-- Closed form of the state after n creates, a finalize of proposal 0,
and one further create call, which inserts at the current counter
value. -/
theorem run_createOps_finalize_create (n : Nat) (h0 : 0 < n) (hle : n ≤ U32) :
    run new (createOps n ++ [Op.finalize 0, Op.create 0 "e"]) =
      { proposals := insertKV (insertKV (proposalEntries n) 0 (⟨"d", 0, 0, ProposalStatus.Rejected, 0⟩ : Proposal Nat)) (n % U32) (⟨"e", 0, 0, ProposalStatus.Active, 0⟩ : Proposal Nat),
        votes := [], next_proposal_id := (n % U32 + 1) % U32 } := by
  have hsplit : createOps n ++ [Op.finalize 0, Op.create 0 "e"] =
      (createOps n ++ [Op.finalize 0]) ++ [Op.create 0 "e"] := by
    simp
  rw [hsplit, run_append, run_createOps_finalize n h0 hle]
  show applyOp _ (Op.create 0 "e") = _
  simp only [applyOp, create_eq]

/-- Call sequence that wraps the allocation counter with 2 ^ 32 creates,
finalizes proposal 0, then creates once more, overwriting proposal 0. -/
def opsC6 : List (Op Nat) := createOps U32 ++ [Op.finalize 0, Op.create 0 "e"]

/-- Counterexample to C6 as stated: finalize of proposal 0 succeeds after
2 ^ 32 creates; in the reachable state after one further create call —
which overwrites proposal 0 with a fresh Active record because the
allocation counter wrapped to 0 — a later finalize_proposal of the same id
succeeds with Rejected instead of failing with AlreadyFinalized. -/
theorem C6_later_finalize_succeeds :
    (finalize_proposal (run new (createOps U32)) 0).1 =
      Except.ok ProposalStatus.Rejected ∧
    Reachable (run new opsC6) ∧
    (finalize_proposal (run new opsC6) 0).1 =
      Except.ok ProposalStatus.Rejected ∧
    (Except.ok ProposalStatus.Rejected : Except String ProposalStatus) ≠
      Except.error AlreadyFinalized := by
  refine ⟨finalize_after_createOps U32 (by decide) (le_refl U32),
    ⟨opsC6, rfl⟩, ?_, by decide⟩
  have h2 := run_createOps_finalize_create U32 (by decide) (le_refl U32)
  rw [Nat.mod_self] at h2
  rw [show opsC6 = createOps U32 ++ [Op.finalize 0, Op.create 0 "e"] from rfl, h2]
  exact finalize_head_rejected (insertKV (insertKV (proposalEntries U32) 0 (⟨"d", 0, 0, ProposalStatus.Rejected, 0⟩ : Proposal Nat)) 0 (⟨"e", 0, 0, ProposalStatus.Active, 0⟩ : Proposal Nat)) [] ((0 + 1) % U32) 0
    (⟨"e", 0, 0, ProposalStatus.Active, 0⟩ : Proposal Nat)
    (by rw [lookupKV_insertKV, if_pos rfl]) rfl (by decide)

/-- C4 (amended): once a vote by voter v on proposal pid is recorded in a
reachable state, every later vote call by v on pid — after any further
call sequence, finalized or not — fails and leaves the state untouched:
with DuplicateVote while the proposal is still Active, and with
ProposalNotActive once it is finalized, because the source checks the
Active status before the duplicate check. -/
theorem C4_no_double_vote {A : Type} [DecidableEq A] (s : GovernancePallet A)
    (hs : Reachable s) (v : A) (pid : Nat) (b : Bool)
    (hb : lookupKV s.votes (v, pid) = some b) (ops2 : List (Op A)) (t : Bool) :
    ∃ p : Proposal A, lookupKV (run s ops2).proposals pid = some p ∧
      vote (run s ops2) v pid t =
        (Except.error (if p.status = ProposalStatus.Active then DuplicateVote else ProposalNotActive), run s ops2) := by
  have hreach2 : Reachable (run s ops2) := by
    obtain ⟨ops1, h1⟩ := hs
    exact ⟨ops1 ++ ops2, by rw [run_append, h1]⟩
  have hb2 : lookupKV (run s ops2).votes (v, pid) = some b :=
    votes_persist_run ops2 s _ b hb
  obtain ⟨p, hp⟩ := votesRef_reachable hreach2 v pid b hb2
  refine ⟨p, hp, ?_⟩
  by_cases hact : p.status = ProposalStatus.Active
  · rw [if_pos hact]
    exact vote_eq_dup t hp hact hb2
  · rw [if_neg hact]
    exact vote_eq_notactive v t hp hact

/-- Calls that create a proposal, record a successful vote by voter 1, and
finalize the proposal. -/
def opsC4 : List (Op Nat) :=
  [Op.create 0 "d", Op.castVote 1 0 true, Op.finalize 0]

/-- Counterexample to C4 as stated: voter 1 voted successfully, the
proposal was then finalized, and the repeated vote by voter 1 fails with
ProposalNotActive — not with DuplicateVote as the claim demands. -/
theorem C4_second_vote_after_finalize :
    (vote (run new [Op.create 0 "d"]) 1 0 true).1 = Except.ok () ∧
    Reachable (run new opsC4) ∧
    lookupKV (run new opsC4).votes (1, 0) = some true ∧
    (vote (run new opsC4) 1 0 true).1 = Except.error ProposalNotActive ∧
    ProposalNotActive ≠ DuplicateVote := by
  refine ⟨by decide, ⟨opsC4, rfl⟩, by decide, by decide, by decide⟩

/-- Witness of C4 (amended): after the create-vote run and a finalize, the
repeated vote resolves through the theorem at a concrete state. -/
theorem C4_no_double_vote_witness :
    ∃ p : Proposal Nat,
      lookupKV (run (run new [Op.create 0 "d", Op.castVote 1 0 true])
        [Op.finalize 0]).proposals 0 = some p ∧
      vote (run (run new [Op.create 0 "d", Op.castVote 1 0 true])
        [Op.finalize 0]) 1 0 false =
        (Except.error (if p.status = ProposalStatus.Active then DuplicateVote else ProposalNotActive), run (run new [Op.create 0 "d", Op.castVote 1 0 true]) [Op.finalize 0]) :=
  C4_no_double_vote (run new [Op.create 0 "d", Op.castVote 1 0 true])
    ⟨[Op.create 0 "d", Op.castVote 1 0 true], rfl⟩ 1 0 true (by decide)
    [Op.finalize 0] false

/-- C1 (amended): on every run from new with fewer than 2 ^ 32 create
calls, each stored counter equals the number of matching vote records
modulo 2 ^ 32, and yes_votes + no_votes equals the total number of vote
records for the proposal whenever that total is below 2 ^ 32. -/
theorem C1_tally_modulo {A : Type} [DecidableEq A] (ops : List (Op A))
    (hc : countCreates ops < U32) (pid : Nat) (p : Proposal A)
    (hl : lookupKV (run new ops).proposals pid = some p) :
    p.yes_votes = countVotesFor (run new ops).votes pid true % U32 ∧
    p.no_votes = countVotesFor (run new ops).votes pid false % U32 ∧
    (countVotes (run new ops).votes pid < U32 →
      p.yes_votes + p.no_votes = countVotes (run new ops).votes pid) := by
  have hInv := (inv_reachable_bounded ops hc).1
  have hy := hInv.tally_yes pid p hl
  have hn := hInv.tally_no pid p hl
  refine ⟨hy, hn, ?_⟩
  intro hcount
  have hsplit := countVotes_eq_for_add (run new ops).votes pid
  have hyLt : countVotesFor (run new ops).votes pid true < U32 := by omega
  have hnLt : countVotesFor (run new ops).votes pid false < U32 := by omega
  rw [hy, hn, Nat.mod_eq_of_lt hyLt, Nat.mod_eq_of_lt hnLt]
  omega

/-- Counterexample to C1 as stated: in the reachable state where 2 ^ 32
distinct voters have voted yes on proposal 0, the stored tally reads
yes_votes = 0 and no_votes = 0 while the votes map holds 2 ^ 32 records
for the proposal, so the claimed equality fails. -/
theorem C1_tally_breaks_at_wraparound :
    Reachable (run sOne (voteOps U32)) ∧
    lookupKV (run sOne (voteOps U32)).proposals 0 =
      some ⟨"d", 0, 0, ProposalStatus.Active, 0⟩ ∧
    countVotes (run sOne (voteOps U32)).votes 0 = U32 ∧
    (0 : Nat) + 0 ≠ U32 := by
  have h := run_voteOps U32 (le_refl U32)
  have hreach : run new ([Op.create 0 "d"] ++ voteOps U32) =
      run sOne (voteOps U32) := by
    rw [run_append, sOne_reachable]
  refine ⟨⟨[Op.create 0 "d"] ++ voteOps U32, hreach⟩, ?_, ?_, by decide⟩
  · rw [h]
    dsimp only
    rw [Nat.mod_self]
    simp [lookupKV]
  · rw [h]
    dsimp only
    exact countVotes_voteEntries U32

/-- The test scenario of the source: one proposal, two yes votes and one
no vote. -/
def opsW : List (Op Nat) :=
  [Op.create 0 "a", Op.castVote 1 0 true, Op.castVote 2 0 true,
   Op.castVote 3 0 false]

/-- Witness of C1 (amended): after two yes votes and one no vote the
stored counters match the record counts and their sum. -/
theorem C1_tally_modulo_witness :
    (2 : Nat) = countVotesFor (run new opsW).votes 0 true % U32 ∧
    (1 : Nat) = countVotesFor (run new opsW).votes 0 false % U32 ∧
    (2 : Nat) + 1 = countVotes (run new opsW).votes 0 := by
  have h := C1_tally_modulo opsW (by decide) 0
    ⟨"a", 2, 1, ProposalStatus.Active, 0⟩ rfl
  exact ⟨h.1, h.2.1, h.2.2 (by decide)⟩

end Governance
